import Mathlib

/-!
Shallow embedding of `bitmap.py` (AppSpeedIndex): the earth-mover histogram
distance, RGBA color equality, color histograms with default-color fallback,
and the `Bitmap` entity with its lazy crop box, pixel access, equality test
and pixel diff.  Python integers are modelled as `Int`/`Nat`, the float
result of the distance as an exact rational, and raised exceptions as the
`Except String` monad.
-/

/-- Loop body of `HistogramDistance` (bitmap.py lines 40-44): folds over the
zipped bucket lists carrying `(total, remainder)`; each step does
`remainder += value1 * n2 - value2 * n1` then `total += abs(remainder)`. -/
def emdLoop (n1 n2 : Int) : List (Int × Int) → Int × Int → Int × Int
  | [], acc => acc
  | (value1, value2) :: rest, (total, remainder) =>
    let remainder' := remainder + (value1 * n2 - value2 * n1)
    emdLoop n1 n2 rest (total + |remainder'|, remainder')

/-- Embedding of the free function `HistogramDistance(hist1, hist2)`
(bitmap.py lines 19-48).  Raised `ValueError`s and the failing `assert`
become `.error`; the returned float `abs(float(total) / n1 / n2)` is
modelled as the exact rational it computes. -/
def HistogramDistance (hist1 hist2 : List Int) : Except String ℚ :=
  if hist1.length ≠ hist2.length then
    .error "Trying to compare histograms of different sizes"
  else
    let n1 := hist1.sum
    let n2 := hist2.sum
    if n1 = 0 then .error "First histogram has 0 pixels in it."
    else if n2 = 0 then .error "Second histogram has 0 pixels in it."
    else
      let tr := emdLoop n1 n2 (hist1.zip hist2) (0, 0)
      if tr.2 ≠ 0 then
        .error "pixel(s) left over after computing histogram distance."
      else
        .ok |(tr.1 : ℚ) / (n1 : ℚ) / (n2 : ℚ)|

/-- Embedding of the `RgbaColor` namedtuple (bitmap.py line 80): four
channels, each a byte value. -/
structure RgbaColor where
  r : Nat
  g : Nat
  b : Nat
  a : Nat
deriving DecidableEq, Repr

/-- Python constructor `RgbaColor(r, g, b)` with the default `a=255`. -/
def RgbaColor.rgb (r g b : Nat) : RgbaColor := ⟨r, g, b, 255⟩

/-- Channel `i` of a color, as Python's namedtuple indexing
`default_color[i]` reads it for `i` in 0..2. -/
def RgbaColor.channel (c : RgbaColor) (i : Nat) : Nat :=
  match i with
  | 0 => c.r
  | 1 => c.g
  | _ => c.b

/-- Embedding of `RgbaColor.IsEqual(expected_color, tolerance)`
(bitmap.py lines 91-99): each channel difference must be within the
tolerance, independently. -/
def RgbaColor.IsEqual (c expected_color : RgbaColor) (tolerance : Int) : Bool :=
  let r_diff := |(c.r : Int) - (expected_color.r : Int)|
  let g_diff := |(c.g : Int) - (expected_color.g : Int)|
  let b_diff := |(c.b : Int) - (expected_color.b : Int)|
  let a_diff := |(c.a : Int) - (expected_color.a : Int)|
  decide (r_diff ≤ tolerance ∧ g_diff ≤ tolerance
      ∧ b_diff ≤ tolerance ∧ a_diff ≤ tolerance)

/-- Embedding of the `ColorHistogram` namedtuple (bitmap.py lines 51-57):
three 256-bucket count sequences and an optional fallback color. -/
structure ColorHistogram where
  r : List Int
  g : List Int
  b : List Int
  default_color : Option RgbaColor
deriving Repr

/-- Channel `i` of a histogram, as Python's `self[i]` for `i` in 0..2. -/
def ColorHistogram.channel (h : ColorHistogram) (i : Nat) : List Int :=
  match i with
  | 0 => h.r
  | 1 => h.g
  | _ => h.b

/-- Embedding of `hist = [0]*256; hist[idx] = 1` (bitmap.py lines 68-69
and 73-74): 256 zero buckets with a single count of 1 at `idx`. -/
def spike256 (idx : Nat) : List Int := (List.replicate 256 (0 : Int)).set idx 1

/-- Degenerate-channel substitution inside `ColorHistogram.Distance`
(bitmap.py lines 65-74): a channel summing to zero is replaced by
`[0]*256` with a 1 at the default color's channel value, or is an error
when there is no default color. -/
def resolveChannel (hist : List Int) (default_color : Option RgbaColor)
    (i : Nat) : Except String (List Int) :=
  if hist.sum = 0 then
    match default_color with
    | none => .error "Histogram has no data and no default color."
    | some c => .ok (spike256 (c.channel i))
  else
    .ok hist

/-- Body of one iteration of the loop in `ColorHistogram.Distance`
(bitmap.py lines 61-76): resolve both operands' channel `i`, then take
their `HistogramDistance`. -/
def distChannel (self other : ColorHistogram) (i : Nat) : Except String ℚ := do
  let hist1 ← resolveChannel (self.channel i) self.default_color i
  let hist2 ← resolveChannel (other.channel i) other.default_color i
  HistogramDistance hist1 hist2

/-- Embedding of `ColorHistogram.Distance(other)` (bitmap.py lines 59-77):
the per-channel distances over r, g, b, summed. -/
def ColorHistogram.Distance (self other : ColorHistogram) : Except String ℚ := do
  let d0 ← distChannel self other 0
  let d1 ← distChannel self other 1
  let d2 ← distChannel self other 2
  return 0 + d0 + d1 + d2

section EmdLemmas

/-- The remainder component of `emdLoop` telescopes: it adds
`Σ (v1 * n2 - v2 * n1)` over the processed pairs onto the carried value. -/
theorem emdLoop_snd (n1 n2 : Int) (l : List (Int × Int)) (total remainder : Int) :
    (emdLoop n1 n2 l (total, remainder)).2 =
      remainder + ((l.map (fun p => p.1 * n2 - p.2 * n1)).sum) := by
  induction l generalizing total remainder with
  | nil => simp [emdLoop]
  | cons p rest ih =>
    obtain ⟨v1, v2⟩ := p
    simp only [emdLoop, ih, List.map_cons, List.sum_cons]
    ring

/-- Over the zip of two equal-length lists, the per-pair combination
`v1 * n2 - v2 * n1` sums to `(Σ hist1) * n2 - (Σ hist2) * n1`. -/
theorem sum_zip_cross (n1 n2 : Int) (hist1 hist2 : List Int)
    (hlen : hist1.length = hist2.length) :
    (((hist1.zip hist2).map (fun p => p.1 * n2 - p.2 * n1)).sum) =
      hist1.sum * n2 - hist2.sum * n1 := by
  induction hist1 generalizing hist2 with
  | nil =>
    cases hist2 with
    | nil => simp
    | cons b bs => simp at hlen
  | cons a as ih =>
    cases hist2 with
    | nil => simp at hlen
    | cons b bs =>
      simp only [List.length_cons, Nat.succ.injEq] at hlen
      simp only [List.zip_cons_cons, List.map_cons, List.sum_cons,
        List.sum_cons, ih bs hlen]
      ring

/-- Swapping the operand roles negates every running remainder and keeps
every `|remainder|`, hence keeps the running total. -/
theorem emdLoop_swap (n1 n2 : Int) (l : List (Int × Int)) (total remainder : Int) :
    emdLoop n2 n1 (l.map Prod.swap) (total, -remainder) =
      ((emdLoop n1 n2 l (total, remainder)).1,
        -(emdLoop n1 n2 l (total, remainder)).2) := by
  induction l generalizing total remainder with
  | nil => simp [emdLoop]
  | cons p rest ih =>
    obtain ⟨v1, v2⟩ := p
    simp only [List.map_cons, Prod.swap_prod_mk, emdLoop]
    have harg : -remainder + (v2 * n1 - v1 * n2) =
        -(remainder + (v1 * n2 - v2 * n1)) := by ring
    rw [harg, abs_neg]
    exact ih _ _

/-- Running the loop on a list zipped with itself keeps both accumulators
fixed when the two scale factors agree. -/
theorem emdLoop_self (n : Int) (l : List Int) (total remainder : Int) :
    emdLoop n n (l.zip l) (total, remainder) = (total + |remainder| * l.length, remainder) := by
  induction l generalizing total remainder with
  | nil => simp [emdLoop]
  | cons a rest ih =>
    simp only [List.zip_cons_cons, emdLoop]
    have h1 : remainder + (a * n - a * n) = remainder := by ring
    have hzip : List.zipWith Prod.mk rest rest = rest.zip rest := rfl
    rw [h1, hzip, ih]
    simp only [List.length_cons, Prod.mk.injEq]
    refine ⟨?_, trivial⟩
    push_cast
    ring

end EmdLemmas

/-- Total accumulated by the spec's walk: the running remainder after the
buckets `0..k` is `(Σ_{i≤k} hist1[i]) * n2 - (Σ_{i≤k} hist2[i]) * n1`, and
`total` accumulates its absolute value at each step. -/
def specTotal (hist1 hist2 : List Int) : Int :=
  ((List.range hist1.length).map (fun k =>
    |((hist1.take (k + 1)).sum) * hist2.sum - ((hist2.take (k + 1)).sum) * hist1.sum|)).sum

section EmdEval

/-- The total component of `emdLoop` is the sum, over every processed
prefix, of the absolute value of the running remainder at that prefix. -/
theorem emdLoop_fst (n1 n2 : Int) (l : List (Int × Int)) (total remainder : Int) :
    (emdLoop n1 n2 l (total, remainder)).1 =
      total + ((List.range l.length).map (fun k =>
        |remainder + (((l.take (k + 1)).map (fun p => p.1 * n2 - p.2 * n1)).sum)|)).sum := by
  induction l generalizing total remainder with
  | nil => simp [emdLoop]
  | cons p rest ih =>
    obtain ⟨v1, v2⟩ := p
    simp only [emdLoop, ih, List.length_cons, List.range_succ_eq_map,
      List.map_cons, List.map_map, List.sum_cons, List.take_succ_cons,
      Function.comp, Nat.succ_eq_add_one, List.map_cons, List.sum_cons]
    have habs : ∀ k : ℕ,
        |remainder + (v1 * n2 - v2 * n1) +
            ((List.map (fun p => p.1 * n2 - p.2 * n1) (rest.take (k + 1))).sum)| =
        |remainder + (v1 * n2 - v2 * n1 +
            ((List.map (fun p => p.1 * n2 - p.2 * n1) (rest.take (k + 1))).sum))| := by
      intro k; rw [add_assoc]
    simp only [habs]
    ring_nf
    simp [List.take_zero, add_assoc, add_comm, add_left_comm, Function.comp_def]

/-- Evaluation of `HistogramDistance` when the length and nonzero-sum
checks pass: the leftover assert cannot fire and the rational result is
returned. -/
theorem HistogramDistance_eval (hist1 hist2 : List Int)
    (hlen : hist1.length = hist2.length)
    (hn1 : hist1.sum ≠ 0) (hn2 : hist2.sum ≠ 0) :
    HistogramDistance hist1 hist2 =
      .ok |((emdLoop hist1.sum hist2.sum (hist1.zip hist2) (0, 0)).1 : ℚ)
        / ((hist1.sum : ℚ)) / ((hist2.sum : ℚ))| := by
  have hrem : (emdLoop hist1.sum hist2.sum (hist1.zip hist2) (0, 0)).2 = 0 := by
    rw [emdLoop_snd, sum_zip_cross _ _ _ _ hlen]
    ring
  simp only [HistogramDistance]
  rw [if_neg (not_not_intro hlen), if_neg hn1, if_neg hn2,
    if_neg (not_not_intro hrem)]

end EmdEval

/-- C1: for equal-length bucket lists with positive sums `n1`, `n2`,
`HistogramDistance` walks the buckets in index order keeping the signed
running remainder `remainder += hist1[i]*n2 - hist2[i]*n1`, accumulates
`total += |remainder|` at each bucket (`specTotal` is that accumulated
total, written through prefix sums), and returns `|total| / n1 / n2`. -/
theorem histogramDistance_walk_formula (hist1 hist2 : List Int)
    (hlen : hist1.length = hist2.length)
    (hn1 : 0 < hist1.sum) (hn2 : 0 < hist2.sum) :
    HistogramDistance hist1 hist2 =
      .ok ((|specTotal hist1 hist2| : ℚ) / ((hist1.sum : Int) : ℚ) / ((hist2.sum : Int) : ℚ)) := by
  rw [HistogramDistance_eval hist1 hist2 hlen hn1.ne' hn2.ne']
  have htot : (emdLoop hist1.sum hist2.sum (hist1.zip hist2) (0, 0)).1 =
      specTotal hist1 hist2 := by
    rw [emdLoop_fst]
    have hlenz : (hist1.zip hist2).length = hist1.length := by
      rw [List.length_zip, hlen, min_self]
    simp only [specTotal, hlenz, zero_add]
    refine congrArg List.sum (List.map_congr_left ?_)
    intro k _
    have hz : (hist1.zip hist2).take (k + 1) =
        (hist1.take (k + 1)).zip (hist2.take (k + 1)) := by
      simp [List.zip_eq_zipWith, List.take_zipWith]
    rw [hz, sum_zip_cross _ _ _ _ (by simp [List.length_take, hlen])]
  rw [htot]
  have hc1 : (0 : ℚ) < ((hist1.sum : Int) : ℚ) := by exact_mod_cast hn1
  have hc2 : (0 : ℚ) < ((hist2.sum : Int) : ℚ) := by exact_mod_cast hn2
  rw [abs_div, abs_div, abs_of_pos hc1, abs_of_pos hc2]

/-- Witness for C1 on `hist1 = [1, 0]`, `hist2 = [0, 1]`. -/
theorem histogramDistance_walk_formula_witness :
    ([1, 0] : List Int).length = ([0, 1] : List Int).length ∧
      0 < ([1, 0] : List Int).sum ∧ 0 < ([0, 1] : List Int).sum ∧
      HistogramDistance [1, 0] [0, 1] =
        .ok ((|specTotal [1, 0] [0, 1]| : ℚ)
          / ((([1, 0] : List Int).sum : Int) : ℚ)
          / ((([0, 1] : List Int).sum : Int) : ℚ)) :=
  ⟨rfl, by decide, by decide,
    histogramDistance_walk_formula [1, 0] [0, 1] rfl (by decide) (by decide)⟩

/-- C2: with equal lengths the running remainder after all buckets is the
telescoped `sum hist1 * n2 - sum hist2 * n1`, which is exactly zero, and
under positive sums the final assert cannot fire: the function returns a
value rather than the leftover error. -/
theorem histogramDistance_remainder_conservation (hist1 hist2 : List Int)
    (hlen : hist1.length = hist2.length)
    (hn1 : 0 < hist1.sum) (hn2 : 0 < hist2.sum) :
    (emdLoop hist1.sum hist2.sum (hist1.zip hist2) (0, 0)).2 =
        hist1.sum * hist2.sum - hist2.sum * hist1.sum ∧
      (emdLoop hist1.sum hist2.sum (hist1.zip hist2) (0, 0)).2 = 0 ∧
      ∃ q, HistogramDistance hist1 hist2 = .ok q := by
  have hr : (emdLoop hist1.sum hist2.sum (hist1.zip hist2) (0, 0)).2 =
      hist1.sum * hist2.sum - hist2.sum * hist1.sum := by
    rw [emdLoop_snd, sum_zip_cross _ _ _ _ hlen]
    ring
  exact ⟨hr, by rw [hr]; ring,
    ⟨_, HistogramDistance_eval hist1 hist2 hlen hn1.ne' hn2.ne'⟩⟩

/-- Witness for C2 on `hist1 = [1, 2]`, `hist2 = [2, 1]`. -/
theorem histogramDistance_remainder_conservation_witness :
    ([1, 2] : List Int).length = ([2, 1] : List Int).length ∧
      0 < ([1, 2] : List Int).sum ∧ 0 < ([2, 1] : List Int).sum ∧
      ((emdLoop ([1, 2] : List Int).sum ([2, 1] : List Int).sum
          (([1, 2] : List Int).zip [2, 1]) (0, 0)).2 =
          ([1, 2] : List Int).sum * ([2, 1] : List Int).sum
            - ([2, 1] : List Int).sum * ([1, 2] : List Int).sum ∧
        (emdLoop ([1, 2] : List Int).sum ([2, 1] : List Int).sum
          (([1, 2] : List Int).zip [2, 1]) (0, 0)).2 = 0 ∧
        ∃ q, HistogramDistance [1, 2] [2, 1] = .ok q) :=
  ⟨rfl, by decide, by decide,
    histogramDistance_remainder_conservation [1, 2] [2, 1] rfl (by decide) (by decide)⟩

/-- C3: `HistogramDistance` is symmetric on equal-length lists with
positive sums, and the distance from a positive-sum list to itself is 0. -/
theorem histogramDistance_symm_and_self (hist1 hist2 h : List Int)
    (hlen : hist1.length = hist2.length)
    (hn1 : 0 < hist1.sum) (hn2 : 0 < hist2.sum) (hn : 0 < h.sum) :
    HistogramDistance hist1 hist2 = HistogramDistance hist2 hist1 ∧
      HistogramDistance h h = .ok 0 := by
  constructor
  · rw [HistogramDistance_eval hist1 hist2 hlen hn1.ne' hn2.ne',
      HistogramDistance_eval hist2 hist1 hlen.symm hn2.ne' hn1.ne']
    have hswap := emdLoop_swap hist1.sum hist2.sum (hist1.zip hist2) 0 0
    rw [neg_zero, List.zip_swap] at hswap
    rw [hswap, div_right_comm]
  · rw [HistogramDistance_eval h h rfl hn.ne' hn.ne', emdLoop_self]
    simp

/-- Witness for C3 on `hist1 = [1, 2]`, `hist2 = [2, 1]`, `h = [5]`. -/
theorem histogramDistance_symm_and_self_witness :
    ([1, 2] : List Int).length = ([2, 1] : List Int).length ∧
      0 < ([1, 2] : List Int).sum ∧ 0 < ([2, 1] : List Int).sum ∧
      0 < ([5] : List Int).sum ∧
      (HistogramDistance [1, 2] [2, 1] = HistogramDistance [2, 1] [1, 2] ∧
        HistogramDistance [5] [5] = .ok 0) :=
  ⟨rfl, by decide, by decide, by decide,
    histogramDistance_symm_and_self [1, 2] [2, 1] [5] rfl
      (by decide) (by decide) (by decide)⟩


/-- C4: `RgbaColor.IsEqual` holds exactly when every one of the four
channel differences is within the tolerance, each channel independently;
in particular `(10,10,10)` vs `(12,12,12)` is equal at tolerance 2 and
not at tolerance 1. -/
theorem rgbaColor_isEqual_iff :
    (∀ (c e : RgbaColor) (tolerance : Int),
        c.IsEqual e tolerance = true ↔
          (|(c.r : Int) - (e.r : Int)| ≤ tolerance ∧
            |(c.g : Int) - (e.g : Int)| ≤ tolerance ∧
            |(c.b : Int) - (e.b : Int)| ≤ tolerance ∧
            |(c.a : Int) - (e.a : Int)| ≤ tolerance)) ∧
      (RgbaColor.rgb 10 10 10).IsEqual (RgbaColor.rgb 12 12 12) 2 = true ∧
      (RgbaColor.rgb 10 10 10).IsEqual (RgbaColor.rgb 12 12 12) 1 = false := by
  refine ⟨?_, by decide, by decide⟩
  intro c e tolerance
  simp [RgbaColor.IsEqual]

/-- C5: inside `ColorHistogram.Distance`, a channel of either operand that
sums to zero is replaced by a 256-bucket spike at the matching channel of
`default_color` before the per-channel distance runs, and is an error when
there is no `default_color`; `Distance` is the bind-chain of the three
per-channel computations. -/
theorem colorHistogram_distance_degenerate (self other : ColorHistogram)
    (i : Nat) (c : RgbaColor) :
    ((self.channel i).sum = 0 → self.default_color = none →
      distChannel self other i =
        .error "Histogram has no data and no default color.") ∧
    ((self.channel i).sum = 0 → self.default_color = some c →
      distChannel self other i =
        (resolveChannel (other.channel i) other.default_color i).bind
          (fun hist2 => HistogramDistance (spike256 (c.channel i)) hist2)) ∧
    ((self.channel i).sum ≠ 0 → (other.channel i).sum = 0 →
      other.default_color = none →
      distChannel self other i =
        .error "Histogram has no data and no default color.") ∧
    ((self.channel i).sum ≠ 0 → (other.channel i).sum = 0 →
      other.default_color = some c →
      distChannel self other i =
        HistogramDistance (self.channel i) (spike256 (c.channel i))) ∧
    ColorHistogram.Distance self other =
      (distChannel self other 0).bind (fun d0 =>
        (distChannel self other 1).bind (fun d1 =>
          (distChannel self other 2).bind (fun d2 =>
            .ok (0 + d0 + d1 + d2)))) := by
  refine ⟨?_, ?_, ?_, ?_, rfl⟩
  · intro hsum hdc
    simp only [distChannel, resolveChannel, hsum, hdc, if_pos]
    rfl
  · intro hsum hdc
    simp only [distChannel, resolveChannel, hsum, hdc, if_pos]
    rfl
  · intro hs1 hsum hdc
    simp only [distChannel, resolveChannel, hs1, hsum, hdc, if_pos, if_neg]
    rfl
  · intro hs1 hsum hdc
    simp only [distChannel, resolveChannel, hs1, hsum, hdc, if_pos, if_neg]
    rfl

/-- Crop box `(left, top, width, height)` in original-buffer coordinates. -/
abbrev CropBox := Int × Int × Int × Int

/-- Embedding of the `Bitmap` fields set by `__init__` (bitmap.py lines
173-185): `_bpp`, `_width`, `_height` (the un-cropped backing dimensions),
`_pixels` (the backing byte buffer) and `_crop_box`.  The `metadata`
mapping is omitted: no claim mentions it. -/
structure Bitmap where
  bpp : Nat
  bwidth : Nat
  bheight : Nat
  pixels : List Nat
  crop_box : Option CropBox
deriving Repr

/-- Constructor assertions of `Bitmap.__init__` (bitmap.py lines 174-178),
as the well-formedness every constructed bitmap satisfies. -/
def Bitmap.WF (b : Bitmap) : Prop :=
  (b.bpp = 3 ∨ b.bpp = 4) ∧ 0 < b.bwidth ∧ 0 < b.bheight ∧
    b.pixels ≠ [] ∧ b.bpp * b.bwidth * b.bheight = b.pixels.length

instance (b : Bitmap) : Decidable b.WF := by
  unfold Bitmap.WF
  infer_instance

/-- Property `width` (bitmap.py lines 192-195): the pending crop box's
width when one is set, else the backing width. -/
def Bitmap.width (b : Bitmap) : Int :=
  match b.crop_box with
  | some (_, _, w, _) => w
  | none => (b.bwidth : Int)

/-- Property `height` (bitmap.py lines 197-200): the pending crop box's
height when one is set, else the backing height. -/
def Bitmap.height (b : Bitmap) : Int :=
  match b.crop_box with
  | some (_, _, _, h) => h
  | none => (b.bheight : Int)

/-- Modelled from the spec: the external pixel-engine's `CROP_PIXELS`
command (spec section 4.4) — the `bitmaptools` binary is not part of the
sources.  It receives the backing buffer and the crop box and answers
with the cropped pixel buffer: the `bpp` bytes of every pixel of the box,
row-major. -/
def cropPixels (bpp bw : Nat) (pixels : List Nat) (box : CropBox) : List Nat :=
  (List.range box.2.2.2.toNat).flatMap (fun y =>
    (List.range box.2.2.1.toNat).flatMap (fun x =>
      (List.range bpp).map (fun k =>
        pixels.getD (bpp * ((box.2.1.toNat + y) * bw + (box.1.toNat + x)) + k) 0)))

/-- Embedding of the `pixels` property (bitmap.py lines 209-218): a
pending crop box is materialized through the engine's `CROP_PIXELS`
command, the backing width and height become the box's, and the box is
cleared. -/
def Bitmap.materialize (b : Bitmap) : Bitmap :=
  match b.crop_box with
  | none => b
  | some box =>
    { b with pixels := cropPixels b.bpp b.bwidth b.pixels box,
             bwidth := box.2.2.1.toNat, bheight := box.2.2.2.toNat,
             crop_box := none }

/-- Pixel read of `GetPixelColor` from a flat buffer (bitmap.py lines
227-235): `bpp` contiguous bytes at offset `bpp * (y * width + x)`;
3-bpp reads get alpha 255 from the `RgbaColor` default. -/
def readColor (bpp bw : Nat) (pixels : List Nat) (x y : Nat) : RgbaColor :=
  let base := bpp * (y * bw + x)
  if bpp = 4 then
    ⟨pixels.getD base 0, pixels.getD (base + 1) 0,
      pixels.getD (base + 2) 0, pixels.getD (base + 3) 0⟩
  else
    ⟨pixels.getD base 0, pixels.getD (base + 1) 0, pixels.getD (base + 2) 0, 255⟩

/-- Embedding of `GetPixelColor(x, y)` (bitmap.py lines 227-235): forces
crop materialization, then reads from the materialized buffer. -/
def Bitmap.GetPixelColor (b : Bitmap) (x y : Nat) : RgbaColor :=
  readColor b.materialize.bpp b.materialize.bwidth b.materialize.pixels x y

/-- Embedding of `Bitmap.IsEqual(other, tolerance)` (bitmap.py lines
237-255): mismatching logical dimensions give `false`; a nonzero
tolerance or differing bpp runs the per-pixel scan; otherwise the raw
materialized buffers are compared byte for byte. -/
def Bitmap.IsEqual (self other : Bitmap) (tolerance : Int) : Bool :=
  if self.width ≠ other.width ∨ self.height ≠ other.height then
    false
  else if tolerance ≠ 0 ∨ self.bpp ≠ other.bpp then
    (List.range self.height.toNat).all (fun y =>
      (List.range self.width.toNat).all (fun x =>
        (self.GetPixelColor x y).IsEqual (other.GetPixelColor x y) tolerance))
  else
    self.materialize.pixels == other.materialize.pixels

/-- Spec-side pixel scan of `IsEqual` (spec section 4.3), written from the
spec's words for the refinement claim: scan every pixel, row-major with y
outer and x inner, comparing through `RgbaColor.IsEqual`, short-circuiting
on the first mismatch. -/
def pixelScanSpec (self other : Bitmap) (tolerance : Int) : Bool :=
  (List.range self.height.toNat).all (fun y =>
    (List.range self.width.toNat).all (fun x =>
      (self.GetPixelColor x y).IsEqual (other.GetPixelColor x y) tolerance))

/-- Embedding of `Crop(left, top, width, height)` (bitmap.py lines
303-314).  The Python method mutates `self` and returns it; here the
second component is the post-call state of the bitmap and the first the
call's outcome, carrying the returned bitmap on success. -/
def Bitmap.Crop (b : Bitmap) (left top width height : Int) :
    Except String Bitmap × Bitmap :=
  let cur := b.crop_box.getD (0, 0, (b.bwidth : Int), (b.bheight : Int))
  if left < 0 ∨ top < 0 ∨ left + width > cur.2.2.1 ∨ top + height > cur.2.2.2 then
    (.error "Invalid dimensions", b)
  else
    let b' := { b with crop_box := some (cur.1 + left, cur.2.1 + top, width, height) }
    (.ok b', b')

/-- One output pixel of `Diff` (bitmap.py lines 268-283): the three
absolute channel differences at `(x, y)`, a side whose logical range does
not contain the coordinate counting as transparent black `(0,0,0,0)`. -/
def diffPixel (self other : Bitmap) (x y : Nat) : List Nat :=
  let c0 := if (x : Int) < self.width ∧ (y : Int) < self.height then
      self.GetPixelColor x y else ⟨0, 0, 0, 0⟩
  let c1 := if (x : Int) < other.width ∧ (y : Int) < other.height then
      other.GetPixelColor x y else ⟨0, 0, 0, 0⟩
  [((c0.r : Int) - (c1.r : Int)).natAbs,
    ((c0.g : Int) - (c1.g : Int)).natAbs,
    ((c0.b : Int) - (c1.b : Int)).natAbs]

/-- The row-major pixel grid computed by `Diff` (bitmap.py lines 261-283):
row `y` holds the triples of `diffPixel` for `x = 0 .. out_width - 1`;
the Python code fills a zero-initialized `out_height × (out_width * 3)`
grid writing each slot exactly once, which yields these rows. -/
def Bitmap.diffRows (self other : Bitmap) : List (List Nat) :=
  (List.range (max self.height other.height).toNat).map (fun y =>
    (List.range (max self.width other.width).toNat).flatMap (fun x =>
      diffPixel self other x y))

/-- Modelled from the spec: the png encode/decode collaborator pair used
by `Diff` (bitmap.py lines 287-291, `png.from_array` and `Bitmap.FromPng`,
neither part of the sources) — per spec sections 4.3 and 6 the diff grid
round-trips into a fresh, first-class RGB bitmap, 3 bytes per pixel, whose
pixel data are exactly the grid's rows. -/
def pngRoundTrip (rows : List (List Nat)) (w h : Nat) : Bitmap :=
  { bpp := 3, bwidth := w, bheight := h, pixels := rows.flatten, crop_box := none }

/-- Embedding of `Diff(other)` (bitmap.py lines 257-295): compute the
difference grid, then round-trip it through the png collaborator into a
new `Bitmap`. -/
def Bitmap.Diff (self other : Bitmap) : Bitmap :=
  pngRoundTrip (Bitmap.diffRows self other)
    (max self.width other.width).toNat (max self.height other.height).toNat

section CropLemmas

/-- The current logical box consulted by `Crop` has the logical width and
height as its last two components. -/
theorem crop_cur_box (b : Bitmap) :
    (b.crop_box.getD (0, 0, (b.bwidth : Int), (b.bheight : Int))).2.2.1 = b.width ∧
      (b.crop_box.getD (0, 0, (b.bwidth : Int), (b.bheight : Int))).2.2.2 = b.height := by
  cases hc : b.crop_box with
  | none => simp [Bitmap.width, Bitmap.height, hc]
  | some box =>
    obtain ⟨l0, t0, w0, h0⟩ := box
    simp [Bitmap.width, Bitmap.height, hc]

/-- Current logical box consulted by `Crop` (bitmap.py line 305): the
pending crop box, or the full backing image when none is pending. -/
def curBox (b : Bitmap) : CropBox :=
  b.crop_box.getD (0, 0, (b.bwidth : Int), (b.bheight : Int))

/-- Evaluation of a valid `Crop`: the composed box is stored and the
mutated bitmap is returned. -/
theorem crop_valid_eval (b : Bitmap) (left top width height : Int)
    (hl : 0 ≤ left) (ht : 0 ≤ top)
    (hw : left + width ≤ b.width) (hh : top + height ≤ b.height) :
    b.Crop left top width height =
      (.ok (Bitmap.mk b.bpp b.bwidth b.bheight b.pixels
          (some ((curBox b).1 + left, (curBox b).2.1 + top, width, height))),
        Bitmap.mk b.bpp b.bwidth b.bheight b.pixels
          (some ((curBox b).1 + left, (curBox b).2.1 + top, width, height))) := by
  obtain ⟨hcw, hch⟩ := crop_cur_box b
  simp only [Bitmap.Crop, hcw, hch]
  rw [if_neg (by omega)]
  rfl

end CropLemmas

/-- C6: `Crop` raises the invalid-dimensions error exactly when the
requested box leaves the current logical box, and in the error case the
bitmap — its crop box, hence its logical width and height — is left
unchanged. -/
theorem bitmap_crop_invalid (b : Bitmap) (left top width height : Int) :
    (((b.Crop left top width height).1 = .error "Invalid dimensions") ↔
      (left < 0 ∨ top < 0 ∨ left + width > b.width ∨ top + height > b.height)) ∧
    ((left < 0 ∨ top < 0 ∨ left + width > b.width ∨ top + height > b.height) →
      (b.Crop left top width height).2 = b ∧
        ((b.Crop left top width height).2).width = b.width ∧
        ((b.Crop left top width height).2).height = b.height) := by
  obtain ⟨hcw, hch⟩ := crop_cur_box b
  simp only [Bitmap.Crop, hcw, hch]
  by_cases hcond : left < 0 ∨ top < 0 ∨ left + width > b.width ∨ top + height > b.height
  · simp [hcond]
  · simp [hcond]

/-- Witness for C6: a 2×2 bitmap, `Crop(0, 0, 3, 1)` has `left + width`
exceeding the current width, errors, and leaves the bitmap unchanged. -/
theorem bitmap_crop_invalid_witness :
    ((0 : Int) < 0 ∨ (0 : Int) < 0 ∨
        (0 : Int) + 3 > (Bitmap.mk 3 2 2 (List.replicate 12 0) none).width ∨
        (0 : Int) + 1 > (Bitmap.mk 3 2 2 (List.replicate 12 0) none).height) ∧
      ((Bitmap.mk 3 2 2 (List.replicate 12 0) none).Crop 0 0 3 1).1 =
        .error "Invalid dimensions" ∧
      ((Bitmap.mk 3 2 2 (List.replicate 12 0) none).Crop 0 0 3 1).2 =
        Bitmap.mk 3 2 2 (List.replicate 12 0) none :=
  ⟨by decide,
    (bitmap_crop_invalid (Bitmap.mk 3 2 2 (List.replicate 12 0) none) 0 0 3 1).1.mpr
      (by decide),
    ((bitmap_crop_invalid (Bitmap.mk 3 2 2 (List.replicate 12 0) none) 0 0 3 1).2
      (by decide)).1⟩

/-- C7: a valid `Crop` stores the composed absolute box — the current
box's origin (the full image when no crop is pending) translated by the
request — after which the logical width and height report the requested
size; the call returns the mutated bitmap itself, every other field
unchanged. -/
theorem bitmap_crop_compose (b : Bitmap) (left top width height : Int)
    (hl : 0 ≤ left) (ht : 0 ≤ top)
    (hw : left + width ≤ b.width) (hh : top + height ≤ b.height) :
    (b.Crop left top width height).1 = .ok (b.Crop left top width height).2 ∧
    (b.Crop left top width height).2.crop_box =
      some ((curBox b).1 + left, (curBox b).2.1 + top, width, height) ∧
    (b.Crop left top width height).2.width = width ∧
    (b.Crop left top width height).2.height = height ∧
    (b.Crop left top width height).2.bpp = b.bpp ∧
    (b.Crop left top width height).2.pixels = b.pixels ∧
    (b.Crop left top width height).2.bwidth = b.bwidth ∧
    (b.Crop left top width height).2.bheight = b.bheight := by
  rw [crop_valid_eval b left top width height hl ht hw hh]
  refine ⟨rfl, rfl, ?_, ?_, rfl, rfl, rfl, rfl⟩ <;>
    simp [Bitmap.width, Bitmap.height]

/-- Witness for C7: on a 2×2 bitmap with no pending crop,
`Crop(1, 0, 1, 2)` stores the box `(1, 0, 1, 2)` and the bitmap then
reports width 1 and height 2. -/
theorem bitmap_crop_compose_witness :
    (0 : Int) ≤ 1 ∧ (0 : Int) ≤ 0 ∧
      (1 : Int) + 1 ≤ (Bitmap.mk 3 2 2 (List.replicate 12 0) none).width ∧
      (0 : Int) + 2 ≤ (Bitmap.mk 3 2 2 (List.replicate 12 0) none).height ∧
      (((Bitmap.mk 3 2 2 (List.replicate 12 0) none).Crop 1 0 1 2).2.crop_box =
          some ((curBox (Bitmap.mk 3 2 2 (List.replicate 12 0) none)).1 + 1,
            (curBox (Bitmap.mk 3 2 2 (List.replicate 12 0) none)).2.1 + 0, 1, 2) ∧
        ((Bitmap.mk 3 2 2 (List.replicate 12 0) none).Crop 1 0 1 2).2.width = 1 ∧
        ((Bitmap.mk 3 2 2 (List.replicate 12 0) none).Crop 1 0 1 2).2.height = 2) :=
  ⟨by decide, by decide, by decide, by decide,
    (bitmap_crop_compose (Bitmap.mk 3 2 2 (List.replicate 12 0) none) 1 0 1 2
        (by decide) (by decide) (by decide) (by decide)).2.1,
    (bitmap_crop_compose (Bitmap.mk 3 2 2 (List.replicate 12 0) none) 1 0 1 2
        (by decide) (by decide) (by decide) (by decide)).2.2.1,
    (bitmap_crop_compose (Bitmap.mk 3 2 2 (List.replicate 12 0) none) 1 0 1 2
        (by decide) (by decide) (by decide) (by decide)).2.2.2.1⟩

/-- C10: `Crop` never checks that the requested width and height are
positive: whenever `left, top ≥ 0`, `left + width ≤` the logical width and
`top + height ≤` the logical height, the call succeeds even for zero or
negative `width`/`height`, and the bitmap then reports that non-positive
logical size. -/
theorem bitmap_crop_no_size_validation (b : Bitmap) (left top width height : Int)
    (hl : 0 ≤ left) (ht : 0 ≤ top)
    (hw : left + width ≤ b.width) (hh : top + height ≤ b.height) :
    (∃ b', (b.Crop left top width height).1 = .ok b') ∧
    (b.Crop left top width height).2.width = width ∧
    (b.Crop left top width height).2.height = height ∧
    (width ≤ 0 → (b.Crop left top width height).2.width ≤ 0) ∧
    (height ≤ 0 → (b.Crop left top width height).2.height ≤ 0) := by
  rw [crop_valid_eval b left top width height hl ht hw hh]
  refine ⟨⟨_, rfl⟩, ?_, ?_, ?_, ?_⟩ <;>
    simp [Bitmap.width, Bitmap.height]

/-- Witness for C10: `Crop(0, 0, 0, 0)` on a 2×2 bitmap succeeds and the
bitmap then reports logical width and height 0, breaking the positive-size
invariant. -/
theorem bitmap_crop_no_size_validation_witness :
    (0 : Int) ≤ 0 ∧
      (0 : Int) + 0 ≤ (Bitmap.mk 3 2 2 (List.replicate 12 0) none).width ∧
      (0 : Int) + 0 ≤ (Bitmap.mk 3 2 2 (List.replicate 12 0) none).height ∧
      (∃ b', ((Bitmap.mk 3 2 2 (List.replicate 12 0) none).Crop 0 0 0 0).1 = .ok b') ∧
      ((Bitmap.mk 3 2 2 (List.replicate 12 0) none).Crop 0 0 0 0).2.width = 0 ∧
      ((Bitmap.mk 3 2 2 (List.replicate 12 0) none).Crop 0 0 0 0).2.height = 0 :=
  ⟨by decide, by decide, by decide,
    (bitmap_crop_no_size_validation (Bitmap.mk 3 2 2 (List.replicate 12 0) none)
        0 0 0 0 (by decide) (by decide) (by decide) (by decide)).1,
    (bitmap_crop_no_size_validation (Bitmap.mk 3 2 2 (List.replicate 12 0) none)
        0 0 0 0 (by decide) (by decide) (by decide) (by decide)).2.1,
    (bitmap_crop_no_size_validation (Bitmap.mk 3 2 2 (List.replicate 12 0) none)
        0 0 0 0 (by decide) (by decide) (by decide) (by decide)).2.2.1⟩

/-- Degenerate histogram with every channel empty and no fallback color. -/
def emptyHistNoDefault : ColorHistogram :=
  ColorHistogram.mk (List.replicate 256 0) (List.replicate 256 0)
    (List.replicate 256 0) none

/-- Degenerate histogram with every channel empty and fallback color
`(7, 8, 9)`. -/
def emptyHistWithDefault : ColorHistogram :=
  ColorHistogram.mk (List.replicate 256 0) (List.replicate 256 0)
    (List.replicate 256 0) (some (RgbaColor.mk 7 8 9 255))

/-- One-pixel histogram with a count at bucket 5 of every channel. -/
def spikeHist : ColorHistogram :=
  ColorHistogram.mk (spike256 5) (spike256 5) (spike256 5) none

set_option maxRecDepth 20000 in
/-- Witness for C5: an all-zero red channel with no default color errors;
with default color `(7, 8, 9)` the red channel is replaced by a spike at
bucket 7 before the distance runs. -/
theorem colorHistogram_distance_degenerate_witness :
    (emptyHistNoDefault.channel 0).sum = 0 ∧
      emptyHistNoDefault.default_color = none ∧
      (emptyHistWithDefault.channel 0).sum = 0 ∧
      emptyHistWithDefault.default_color = some (RgbaColor.mk 7 8 9 255) ∧
      distChannel emptyHistNoDefault spikeHist 0 =
        .error "Histogram has no data and no default color." ∧
      distChannel emptyHistWithDefault spikeHist 0 =
        (resolveChannel (spikeHist.channel 0) spikeHist.default_color 0).bind
          (fun hist2 =>
            HistogramDistance (spike256 ((RgbaColor.mk 7 8 9 255).channel 0)) hist2) :=
  ⟨by decide, rfl, by decide, rfl,
    (colorHistogram_distance_degenerate emptyHistNoDefault spikeHist 0
        (RgbaColor.mk 7 8 9 255)).1 (by decide) rfl,
    (colorHistogram_distance_degenerate emptyHistWithDefault spikeHist 0
        (RgbaColor.mk 7 8 9 255)).2.1 (by decide) rfl⟩

section BufferLemmas

/-- Tolerance-0 color equality is plain equality of the four channels. -/
theorem isEqual_zero_iff (c0 c1 : RgbaColor) :
    c0.IsEqual c1 0 = true ↔ c0 = c1 := by
  constructor
  · intro h
    obtain ⟨r0, g0, b0, a0⟩ := c0
    obtain ⟨r1, g1, b1, a1⟩ := c1
    simp only [RgbaColor.IsEqual, decide_eq_true_eq] at h
    obtain ⟨hr, hg, hb, ha⟩ := h
    rw [abs_nonpos_iff, sub_eq_zero] at hr hg hb ha
    simp only [RgbaColor.mk.injEq]
    exact ⟨by exact_mod_cast hr, by exact_mod_cast hg,
      by exact_mod_cast hb, by exact_mod_cast ha⟩
  · rintro rfl
    simp [RgbaColor.IsEqual]

/-- Byte-for-byte equality of two pixel buffers of the same geometry is
equivalent to tolerance-0 color equality at every in-range pixel. -/
theorem buffer_eq_iff_colors (bpp W H : Nat) (p q : List Nat)
    (hbpp : bpp = 3 ∨ bpp = 4)
    (hp : p.length = bpp * W * H) (hq : q.length = bpp * W * H) :
    p = q ↔ (∀ y, y < H → ∀ x, x < W →
      (readColor bpp W p x y).IsEqual (readColor bpp W q x y) 0 = true) := by
  constructor
  · rintro rfl y _ x _
    rw [isEqual_zero_iff]
  · intro hcol
    have hbpp_pos : 0 < bpp := by rcases hbpp with h | h <;> omega
    apply List.ext_getElem (by rw [hp, hq])
    intro i hi1 hi2
    have hiW : i < bpp * W * H := by rw [← hp]; exact hi1
    have hW : 0 < W := by
      rcases Nat.eq_zero_or_pos W with h | h
      · subst h; simp at hiW
      · exact h
    have hpix : i / bpp < W * H := by
      apply Nat.div_lt_of_lt_mul
      calc i < bpp * W * H := hiW
        _ = bpp * (W * H) := by ring
    have hy : i / bpp / W < H := Nat.div_lt_of_lt_mul hpix
    have hx : i / bpp % W < W := Nat.mod_lt _ hW
    have hcol' := hcol (i / bpp / W) hy (i / bpp % W) hx
    rw [isEqual_zero_iff] at hcol'
    have hbase : bpp * (i / bpp / W * W + i / bpp % W) = bpp * (i / bpp) := by
      congr 1
      rw [mul_comm (i / bpp / W) W]
      exact Nat.div_add_mod (i / bpp) W
    have hi_decomp : bpp * (i / bpp) + i % bpp = i := Nat.div_add_mod i bpp
    have hgd : p.getD i 0 = q.getD i 0 := by
      rcases hbpp with h | h
      · subst h
        unfold readColor at hcol'
        rw [if_neg (by omega : ¬(3 = 4))] at hcol'
        injection hcol' with h0 h1 h2 h3
        have hk3 : i % 3 = 0 ∨ i % 3 = 1 ∨ i % 3 = 2 := by omega
        rcases hk3 with hk' | hk' | hk'
        · have he : 3 * (i / 3 / W * W + i / 3 % W) = i := by omega
          rw [he] at h0; exact h0
        · have he : 3 * (i / 3 / W * W + i / 3 % W) + 1 = i := by omega
          rw [he] at h1; exact h1
        · have he : 3 * (i / 3 / W * W + i / 3 % W) + 2 = i := by omega
          rw [he] at h2; exact h2
      · subst h
        unfold readColor at hcol'
        rw [if_pos rfl] at hcol'
        injection hcol' with h0 h1 h2 h3
        have hk4 : i % 4 = 0 ∨ i % 4 = 1 ∨ i % 4 = 2 ∨ i % 4 = 3 := by omega
        rcases hk4 with hk' | hk' | hk' | hk'
        · have he : 4 * (i / 4 / W * W + i / 4 % W) = i := by omega
          rw [he] at h0; exact h0
        · have he : 4 * (i / 4 / W * W + i / 4 % W) + 1 = i := by omega
          rw [he] at h1; exact h1
        · have he : 4 * (i / 4 / W * W + i / 4 % W) + 2 = i := by omega
          rw [he] at h2; exact h2
        · have he : 4 * (i / 4 / W * W + i / 4 % W) + 3 = i := by omega
          rw [he] at h3; exact h3
    rw [← List.getD_eq_getElem p 0 hi1, ← List.getD_eq_getElem q 0 hi2]
    exact hgd

/-- Length of a `flatMap` over `range n` of constant-length blocks. -/
theorem flatMap_const_length {β : Type} (f : Nat → List β) (c : Nat)
    (hf : ∀ i, (f i).length = c) (n : Nat) :
    ((List.range n).flatMap f).length = n * c := by
  induction n with
  | zero => simp
  | succ m ih =>
    rw [List.range_succ, List.flatMap_append]
    simp [ih, hf, Nat.succ_mul]

/-- Entry `c * x + k` of a `flatMap` over `range n` of constant-length
blocks is entry `k` of block `x`. -/
theorem flatMap_const_getD (f : Nat → List Nat) (c : Nat)
    (hf : ∀ i, (f i).length = c) (n x k : Nat) (hx : x < n) (hk : k < c) :
    ((List.range n).flatMap f).getD (c * x + k) 0 = (f x).getD k 0 := by
  induction n with
  | zero => omega
  | succ m ih =>
    rw [List.range_succ, List.flatMap_append]
    rcases Nat.lt_or_ge x m with h | h
    · rw [List.getD_append]
      · exact ih h
      · rw [flatMap_const_length f c hf m]
        calc c * x + k < c * x + c := by omega
          _ = c * (x + 1) := by ring
          _ ≤ c * m := Nat.mul_le_mul_left c h
          _ = m * c := by ring
    · have hxm : x = m := by omega
      subst hxm
      rw [List.getD_append_right]
      · simp only [List.flatMap_cons, List.flatMap_nil, List.append_nil]
        congr 1
        rw [flatMap_const_length f c hf x, Nat.mul_comm x c]
        omega
      · rw [flatMap_const_length f c hf x, Nat.mul_comm x c]
        omega

end BufferLemmas

section MaterializeLemmas

/-- The engine's cropped buffer holds `bpp` bytes per box pixel. -/
theorem cropPixels_length (bpp bw : Nat) (pixels : List Nat) (box : CropBox) :
    (cropPixels bpp bw pixels box).length =
      bpp * box.2.2.1.toNat * box.2.2.2.toNat := by
  unfold cropPixels
  rw [flatMap_const_length _ (box.2.2.1.toNat * bpp)]
  · ring
  · intro y
    rw [flatMap_const_length _ bpp]
    intro x
    simp

/-- Materialization does not change the bytes-per-pixel. -/
theorem materialize_bpp (b : Bitmap) : b.materialize.bpp = b.bpp := by
  unfold Bitmap.materialize
  cases b.crop_box <;> rfl

/-- After materialization the backing width is the logical width. -/
theorem materialize_bwidth (b : Bitmap) :
    b.materialize.bwidth = b.width.toNat := by
  unfold Bitmap.materialize Bitmap.width
  cases hc : b.crop_box with
  | none => simp [Int.toNat_natCast]
  | some box => obtain ⟨l0, t0, w0, h0⟩ := box; rfl

/-- After materialization the backing height is the logical height. -/
theorem materialize_bheight (b : Bitmap) :
    b.materialize.bheight = b.height.toNat := by
  unfold Bitmap.materialize Bitmap.height
  cases hc : b.crop_box with
  | none => simp [Int.toNat_natCast]
  | some box => obtain ⟨l0, t0, w0, h0⟩ := box; rfl

/-- The materialized buffer of a well-formed bitmap has exactly `bpp`
bytes per logical pixel. -/
theorem materialize_length (b : Bitmap) (hwf : b.WF) :
    b.materialize.pixels.length = b.bpp * b.width.toNat * b.height.toNat := by
  unfold Bitmap.materialize Bitmap.width Bitmap.height
  cases hc : b.crop_box with
  | none => simp [← hwf.2.2.2.2, Int.toNat_natCast]
  | some box =>
    obtain ⟨l0, t0, w0, h0⟩ := box
    simpa using cropPixels_length b.bpp b.bwidth b.pixels (l0, t0, w0, h0)

/-- `GetPixelColor` reads from the materialized buffer with the logical
width as the row stride. -/
theorem getPixelColor_eq (b : Bitmap) (x y : Nat) :
    b.GetPixelColor x y =
      readColor b.bpp b.width.toNat b.materialize.pixels x y := by
  unfold Bitmap.GetPixelColor
  rw [materialize_bpp, materialize_bwidth]

end MaterializeLemmas

/-- C9: `Bitmap.IsEqual` answers `false` as soon as the logical widths or
heights differ, and at tolerance 0 with equal bpp the byte-for-byte
buffer comparison it performs agrees with the row-major per-pixel scan
through `RgbaColor.IsEqual` at tolerance 0. -/
theorem bitmap_isEqual_dims_and_fastpath :
    (∀ (a b : Bitmap) (tolerance : Int),
        (a.width ≠ b.width ∨ a.height ≠ b.height) →
        Bitmap.IsEqual a b tolerance = false) ∧
    (∀ a b : Bitmap, a.WF → b.WF →
        a.width = b.width → a.height = b.height → a.bpp = b.bpp →
        Bitmap.IsEqual a b 0 = pixelScanSpec a b 0) := by
  constructor
  · intro a b tolerance hne
    unfold Bitmap.IsEqual
    rw [if_pos hne]
  · intro a b hwfa hwfb hw hh hbpp
    unfold Bitmap.IsEqual
    rw [if_neg (by simp [hw, hh]), if_neg (by simp [hbpp])]
    rw [Bool.eq_iff_iff, beq_iff_eq]
    unfold pixelScanSpec
    simp only [List.all_eq_true, List.mem_range, getPixelColor_eq]
    rw [← hbpp, ← hw]
    exact buffer_eq_iff_colors a.bpp a.width.toNat a.height.toNat
      a.materialize.pixels b.materialize.pixels hwfa.1
      (materialize_length a hwfa)
      (by rw [materialize_length b hwfb, hw, hh, hbpp])

/-- One-pixel 3-bpp bitmap with pixel `(1, 2, 3)`. -/
def bmSmall : Bitmap := Bitmap.mk 3 1 1 [1, 2, 3] none

/-- One-pixel 3-bpp bitmap with the differing pixel `(9, 2, 3)`. -/
def bmSmallDiff : Bitmap := Bitmap.mk 3 1 1 [9, 2, 3] none

/-- Two-pixel-wide 3-bpp bitmap. -/
def bmWide : Bitmap := Bitmap.mk 3 2 1 [1, 2, 3, 1, 2, 3] none

/-- Witness for C9: a width mismatch gives `false`, and on two equal-size
equal-bpp bitmaps with one differing pixel the tolerance-0 fast path
agrees with the pixel scan. -/
theorem bitmap_isEqual_dims_and_fastpath_witness :
    (bmSmall.width ≠ bmWide.width ∨ bmSmall.height ≠ bmWide.height) ∧
      Bitmap.IsEqual bmSmall bmWide 5 = false ∧
      bmSmall.WF ∧ bmSmallDiff.WF ∧
      bmSmall.width = bmSmallDiff.width ∧
      bmSmall.height = bmSmallDiff.height ∧
      bmSmall.bpp = bmSmallDiff.bpp ∧
      Bitmap.IsEqual bmSmall bmSmallDiff 0 = pixelScanSpec bmSmall bmSmallDiff 0 :=
  ⟨by decide,
    bitmap_isEqual_dims_and_fastpath.1 bmSmall bmWide 5 (by decide),
    by decide, by decide, rfl, rfl, rfl,
    bitmap_isEqual_dims_and_fastpath.2 bmSmall bmSmallDiff
      (by decide) (by decide) rfl rfl rfl⟩

section DiffLemmas

/-- Every output pixel of `Diff` contributes exactly three channel bytes. -/
theorem diffPixel_length (self other : Bitmap) (x y : Nat) :
    (diffPixel self other x y).length = 3 := rfl

/-- Row `y` of the diff grid is the concatenation of the per-pixel
triples along that row. -/
theorem diffRows_getD (a b : Bitmap) (y : Nat)
    (hy : y < (max a.height b.height).toNat) :
    (a.diffRows b).getD y [] =
      (List.range (max a.width b.width).toNat).flatMap
        (fun x => diffPixel a b x y) := by
  unfold Bitmap.diffRows
  rw [List.getD_eq_getElem _ _ (by simpa using hy), List.getElem_map,
    List.getElem_range]

/-- Diffing a bitmap with itself produces the zero triple everywhere. -/
theorem diffPixel_self (a : Bitmap) (x y : Nat) :
    diffPixel a a x y = [0, 0, 0] := by
  simp [diffPixel]

end DiffLemmas

/-- C8: the diff grid has the element-wise maximum of the two logical
sizes, entry `(y, 3x + j)` is the absolute difference of channel `j` of
the two sides' colors at `(x, y)` — a side whose logical range does not
contain the coordinate counting as transparent black, the other read via
`GetPixelColor` — the resulting bitmap is RGB with those rows as pixels,
and diffing a bitmap against itself gives an all-zero image of the same
logical size. -/
theorem bitmap_diff_grid (a b : Bitmap)
    (hwa : 0 ≤ a.width) (hha : 0 ≤ a.height)
    (_hwb : 0 ≤ b.width) (_hhb : 0 ≤ b.height) :
    (((a.diffRows b).length : Int) = max a.height b.height) ∧
    (∀ y, y < (max a.height b.height).toNat →
      ((((a.diffRows b).getD y []).length : Int) = 3 * max a.width b.width)) ∧
    (∀ y x, y < (max a.height b.height).toNat →
      x < (max a.width b.width).toNat →
      (((a.diffRows b).getD y []).getD (3 * x) 0 =
          (((if (x : Int) < a.width ∧ (y : Int) < a.height then
                a.GetPixelColor x y else RgbaColor.mk 0 0 0 0).r : Int) -
            ((if (x : Int) < b.width ∧ (y : Int) < b.height then
                b.GetPixelColor x y else RgbaColor.mk 0 0 0 0).r : Int)).natAbs ∧
        ((a.diffRows b).getD y []).getD (3 * x + 1) 0 =
          (((if (x : Int) < a.width ∧ (y : Int) < a.height then
                a.GetPixelColor x y else RgbaColor.mk 0 0 0 0).g : Int) -
            ((if (x : Int) < b.width ∧ (y : Int) < b.height then
                b.GetPixelColor x y else RgbaColor.mk 0 0 0 0).g : Int)).natAbs ∧
        ((a.diffRows b).getD y []).getD (3 * x + 2) 0 =
          (((if (x : Int) < a.width ∧ (y : Int) < a.height then
                a.GetPixelColor x y else RgbaColor.mk 0 0 0 0).b : Int) -
            ((if (x : Int) < b.width ∧ (y : Int) < b.height then
                b.GetPixelColor x y else RgbaColor.mk 0 0 0 0).b : Int)).natAbs)) ∧
    ((a.Diff b).bpp = 3 ∧ (a.Diff b).width = max a.width b.width ∧
      (a.Diff b).height = max a.height b.height ∧
      (a.Diff b).pixels = (a.diffRows b).flatten) ∧
    ((a.Diff a).width = a.width ∧ (a.Diff a).height = a.height ∧
      ∀ v ∈ (a.Diff a).pixels, v = 0) := by
  have hmaxw : (0 : Int) ≤ max a.width b.width := le_trans hwa (le_max_left _ _)
  have hmaxh : (0 : Int) ≤ max a.height b.height := le_trans hha (le_max_left _ _)
  refine ⟨?_, ?_, ?_, ⟨rfl, ?_, ?_, rfl⟩, ⟨?_, ?_, ?_⟩⟩
  · unfold Bitmap.diffRows
    simp [Int.toNat_of_nonneg hmaxh]
  · intro y hy
    rw [diffRows_getD a b y hy,
      flatMap_const_length _ 3 (fun x => diffPixel_length a b x y)]
    push_cast [Int.toNat_of_nonneg hmaxw]
    ring
  · intro y x hy hx
    rw [diffRows_getD a b y hy]
    have h0 := flatMap_const_getD (fun x => diffPixel a b x y) 3
      (fun x => diffPixel_length a b x y) _ x 0 hx (by omega)
    have h1 := flatMap_const_getD (fun x => diffPixel a b x y) 3
      (fun x => diffPixel_length a b x y) _ x 1 hx (by omega)
    have h2 := flatMap_const_getD (fun x => diffPixel a b x y) 3
      (fun x => diffPixel_length a b x y) _ x 2 hx (by omega)
    rw [Nat.add_zero] at h0
    refine ⟨?_, ?_, ?_⟩
    · rw [h0]; simp [diffPixel]
    · rw [h1]; simp [diffPixel]
    · rw [h2]; simp [diffPixel]
  · have hd : (a.Diff b).width = (((max a.width b.width).toNat : Nat) : Int) := rfl
    rw [hd, Int.toNat_of_nonneg hmaxw]
  · have hd : (a.Diff b).height = (((max a.height b.height).toNat : Nat) : Int) := rfl
    rw [hd, Int.toNat_of_nonneg hmaxh]
  · have hd : (a.Diff a).width = (((max a.width a.width).toNat : Nat) : Int) := rfl
    rw [hd, max_self, Int.toNat_of_nonneg hwa]
  · have hd : (a.Diff a).height = (((max a.height a.height).toNat : Nat) : Int) := rfl
    rw [hd, max_self, Int.toNat_of_nonneg hha]
  · intro v hv
    unfold Bitmap.Diff pngRoundTrip at hv
    simp only [List.mem_flatten] at hv
    obtain ⟨row, hrow, hvrow⟩ := hv
    unfold Bitmap.diffRows at hrow
    simp only [List.mem_map, List.mem_range] at hrow
    obtain ⟨y, _, hyrow⟩ := hrow
    subst hyrow
    simp only [List.mem_flatMap, List.mem_range] at hvrow
    obtain ⟨x, _, hvx⟩ := hvrow
    rw [diffPixel_self] at hvx
    simpa using hvx

/-- Witness for C8: the diff grid of the two one-pixel bitmaps has height
`max` of the logical heights, and the self-diff of `bmSmall` keeps its
logical size with all channels zero. -/
theorem bitmap_diff_grid_witness :
    (0 : Int) ≤ bmSmall.width ∧ (0 : Int) ≤ bmSmall.height ∧
      (0 : Int) ≤ bmSmallDiff.width ∧ (0 : Int) ≤ bmSmallDiff.height ∧
      (((bmSmall.diffRows bmSmallDiff).length : Int) =
        max bmSmall.height bmSmallDiff.height) ∧
      ((bmSmall.Diff bmSmall).width = bmSmall.width ∧
        (bmSmall.Diff bmSmall).height = bmSmall.height ∧
        ∀ v ∈ (bmSmall.Diff bmSmall).pixels, v = 0) :=
  ⟨by decide, by decide, by decide, by decide,
    (bitmap_diff_grid bmSmall bmSmallDiff
        (by decide) (by decide) (by decide) (by decide)).1,
    (bitmap_diff_grid bmSmall bmSmall
        (by decide) (by decide) (by decide) (by decide)).2.2.2.2⟩
